import Mathlib

/-!
Verification of the RAS bi-proportional balancing core of this repository.

The embedded source is `src/ras_balancing.py`, function `ras_balance`
(lines 4-41).  Matrices are modelled as functions `Fin r → Fin c → ℚ`
(rationals idealise the numpy float64 arithmetic), target vectors as
`Fin r → ℚ` and `Fin c → ℚ`.  The Python `for iteration in range(max_iter)`
loop becomes a fuel-indexed recursion; `range` of a non-positive bound is
empty, so `max_iter` is an integer truncated with `Int.toNat`.

The function returns only the balanced array; the convergence status and
the iteration count are surfaced by the two print statements (lines 37 and
40: "RAS Converged in {iteration} iterations." / "RAS reached max
iterations.").  `RunResult` packages the returned array together with that
observable status.

A second, heap-based embedding (`ras_balance_heap`) makes the numpy
allocation behaviour explicit: `matrix.copy()` (line 11) and each
broadcast multiplication `balanced * ...` (lines 22 and 30) allocate a
fresh array, so the heap is append-only and the caller's array is never
written.
-/

namespace RAS

/-- Working matrix: an r-by-c array of rationals. -/
abbrev Mat (r c : ℕ) : Type := Fin r → Fin c → ℚ

/-- Terminal output of one run: the returned array (line 38 or 41) plus the
convergence flag and iteration count reported by the prints at lines 37/40. -/
structure RunResult (r c : ℕ) where
  matrix : Mat r c
  converged : Bool
  iterationsUsed : ℕ

variable {r c : ℕ}

/-- Line 16 / 33: `balanced.sum(axis=1)`, the current row sums. -/
def row_sums (M : Mat r c) (i : Fin r) : ℚ := ∑ j, M i j

/-- Line 25 / 34: `balanced.sum(axis=0)`, the current column sums. -/
def col_sums (M : Mat r c) (j : Fin c) : ℚ := ∑ i, M i j

/-- Lines 18-20: `np.divide(target_row_sums, current_row_sums,
out=np.ones_like(target_row_sums), where=current_row_sums!=0)` — the
quotient where the denominator is nonzero, the untouched `1` elsewhere. -/
def r_scalers (target_row_sums : Fin r → ℚ) (M : Mat r c) (i : Fin r) : ℚ :=
  if row_sums M i = 0 then 1 else target_row_sums i / row_sums M i

/-- Line 22: `balanced = balanced * r_scalers[:, np.newaxis]` — each row i
is multiplied entrywise by `r_scalers i`. -/
def rowScale (target_row_sums : Fin r → ℚ) (M : Mat r c) : Mat r c :=
  fun i j => M i j * r_scalers target_row_sums M i

/-- Lines 26-28: the column scalers, symmetric to `r_scalers`. -/
def s_scalers (target_col_sums : Fin c → ℚ) (M : Mat r c) (j : Fin c) : ℚ :=
  if col_sums M j = 0 then 1 else target_col_sums j / col_sums M j

/-- Line 30: `balanced = balanced * s_scalers` — each column j is
multiplied entrywise by `s_scalers j`. -/
def colScale (target_col_sums : Fin c → ℚ) (M : Mat r c) : Mat r c :=
  fun i j => M i j * s_scalers target_col_sums M j

/-- Line 33: `np.abs(balanced.sum(axis=1) - target_row_sums).sum()`. -/
def row_diff (target_row_sums : Fin r → ℚ) (M : Mat r c) : ℚ :=
  ∑ i, |row_sums M i - target_row_sums i|

/-- Line 34: `np.abs(balanced.sum(axis=0) - target_col_sums).sum()`. -/
def col_diff (target_col_sums : Fin c → ℚ) (M : Mat r c) : ℚ :=
  ∑ j, |col_sums M j - target_col_sums j|

/-- The quantity tested at line 36: `row_diff + col_diff`. -/
def deviation (R : Fin r → ℚ) (Ct : Fin c → ℚ) (M : Mat r c) : ℚ :=
  row_diff R M + col_diff Ct M

/-- One full pass of the loop body, lines 15-30: row scaling (R step)
followed by column scaling (S step) on the row-scaled matrix. -/
def rasStep (R : Fin r → ℚ) (Ct : Fin c → ℚ) (M : Mat r c) : Mat r c :=
  colScale Ct (rowScale R M)

/-- The matrix after k unconditional passes of the loop body. -/
def rasIter (R : Fin r → ℚ) (Ct : Fin c → ℚ) : ℕ → Mat r c → Mat r c
  | 0, M => M
  | k + 1, M => rasIter R Ct k (rasStep R Ct M)

/-- The `for iteration in range(max_iter)` loop of lines 14-38, with the
remaining trip count as fuel and `iteration` carried explicitly.  When the
fuel runs out the loop falls through to line 41 ("reached max iterations"):
the current matrix is returned with the non-converged status. -/
def rasLoop (R : Fin r → ℚ) (Ct : Fin c → ℚ) (tolerance : ℚ) :
    ℕ → Mat r c → ℕ → RunResult r c
  | 0, M, iteration => ⟨M, false, iteration⟩
  | fuel + 1, M, iteration =>
    let M2 := rasStep R Ct M
    if deviation R Ct M2 < tolerance then ⟨M2, true, iteration⟩
    else rasLoop R Ct tolerance fuel M2 (iteration + 1)

/-- `ras_balance(matrix, target_row_sums, target_col_sums, tolerance,
max_iter)`, lines 4-41.  The function performs no validation of any kind:
it copies the matrix (line 11, value semantics here) and immediately enters
the loop.  `range(max_iter)` is empty for `max_iter ≤ 0`. -/
def ras_balance (matrix : Mat r c) (target_row_sums : Fin r → ℚ)
    (target_col_sums : Fin c → ℚ) (tolerance : ℚ) (max_iter : ℤ) :
    RunResult r c :=
  rasLoop target_row_sums target_col_sums tolerance max_iter.toNat matrix 0

/-- Heap of numpy arrays: the array bound to id `n` is the n-th allocated
one.  The heap only ever grows, because every numpy operation appearing in
`ras_balance` (`matrix.copy()` at line 11 and the two broadcast
multiplications at lines 22 and 30) returns a freshly allocated array and
rebinds the local name `balanced` — none of them writes into an existing
array. -/
abbrev Heap (r c : ℕ) : Type := List (Mat r c)

/-- Read the array stored at id `id`; a dangling id reads as the zero array. -/
def readArr (h : Heap r c) (id : ℕ) : Mat r c := h.getD id (fun _ _ => 0)

/-- The loop of lines 14-38 over the heap.  Each pass allocates the
row-scaled array (line 22) and then the row-and-column-scaled array
(line 30) at the end of the heap and rebinds `balanced` to the latter;
existing cells are never written. -/
def rasLoopHeap (R : Fin r → ℚ) (Ct : Fin c → ℚ) (tolerance : ℚ) :
    ℕ → Heap r c → ℕ → ℕ → Heap r c × ℕ × Bool × ℕ
  | 0, h, bid, iteration => (h, bid, false, iteration)
  | fuel + 1, h, bid, iteration =>
    let M1 := rowScale R (readArr h bid)
    let M2 := colScale Ct M1
    if deviation R Ct M2 < tolerance then (h ++ [M1, M2], h.length + 1, true, iteration)
    else rasLoopHeap R Ct tolerance fuel (h ++ [M1, M2]) (h.length + 1) (iteration + 1)

/-- `ras_balance` over the heap: line 11 `balanced = matrix.copy()`
allocates a fresh copy of the caller's array (id `h.length`), and the loop
then runs on that copy.  Returns the final heap, the id of the returned
array, and the reported status. -/
def ras_balance_heap (h : Heap r c) (mid : ℕ) (R : Fin r → ℚ) (Ct : Fin c → ℚ)
    (tolerance : ℚ) (max_iter : ℤ) : Heap r c × ℕ × Bool × ℕ :=
  rasLoopHeap R Ct tolerance max_iter.toNat (h ++ [readArr h mid]) h.length 0

/-- Abbreviation for the two arrays allocated by one pass of the heap loop. -/
def heapPush (R : Fin r → ℚ) (Ct : Fin c → ℚ) (h : Heap r c) (bid : ℕ) : Heap r c :=
  h ++ [rowScale R (readArr h bid), rasStep R Ct (readArr h bid)]

/-! Helper lemmas about the loop. -/

theorem rasLoop_zero (R : Fin r → ℚ) (Ct : Fin c → ℚ) (tol : ℚ) (M : Mat r c) (it : ℕ) :
    rasLoop R Ct tol 0 M it = ⟨M, false, it⟩ := rfl

theorem rasLoop_succ (R : Fin r → ℚ) (Ct : Fin c → ℚ) (tol : ℚ) (fuel : ℕ)
    (M : Mat r c) (it : ℕ) :
    rasLoop R Ct tol (fuel + 1) M it =
      if deviation R Ct (rasStep R Ct M) < tol then ⟨rasStep R Ct M, true, it⟩
      else rasLoop R Ct tol fuel (rasStep R Ct M) (it + 1) := rfl

theorem rasIter_succ (R : Fin r → ℚ) (Ct : Fin c → ℚ) (k : ℕ) (M : Mat r c) :
    rasIter R Ct (k + 1) M = rasStep R Ct (rasIter R Ct k M) := by
  induction k generalizing M with
  | zero => rfl
  | succ k ih => exact ih (rasStep R Ct M)

theorem row_diff_nonneg (R : Fin r → ℚ) (M : Mat r c) : 0 ≤ row_diff R M :=
  Finset.sum_nonneg fun _ _ => abs_nonneg _

theorem col_diff_nonneg (Ct : Fin c → ℚ) (M : Mat r c) : 0 ≤ col_diff Ct M :=
  Finset.sum_nonneg fun _ _ => abs_nonneg _

theorem deviation_nonneg (R : Fin r → ℚ) (Ct : Fin c → ℚ) (M : Mat r c) :
    0 ≤ deviation R Ct M :=
  add_nonneg (row_diff_nonneg R M) (col_diff_nonneg Ct M)

theorem rasLoop_converged_iff (R : Fin r → ℚ) (Ct : Fin c → ℚ) (tol : ℚ) :
    ∀ (fuel : ℕ) (M : Mat r c) (it : ℕ),
      ((rasLoop R Ct tol fuel M it).converged = true ↔
        ∃ k, k < fuel ∧ deviation R Ct (rasIter R Ct (k + 1) M) < tol) := by
  intro fuel
  induction fuel with
  | zero =>
    intro M it
    simp [rasLoop_zero]
  | succ fuel ih =>
    intro M it
    rw [rasLoop_succ]
    by_cases h : deviation R Ct (rasStep R Ct M) < tol
    · rw [if_pos h]
      constructor
      · intro _
        exact ⟨0, Nat.succ_pos _, h⟩
      · intro _
        rfl
    · rw [if_neg h, ih]
      constructor
      · rintro ⟨k, hk, hd⟩
        exact ⟨k + 1, Nat.succ_lt_succ hk, hd⟩
      · rintro ⟨k, hk, hd⟩
        cases k with
        | zero => exact absurd hd h
        | succ k => exact ⟨k, Nat.lt_of_succ_lt_succ hk, hd⟩

theorem rasLoop_exhaust (R : Fin r → ℚ) (Ct : Fin c → ℚ) (tol : ℚ) :
    ∀ (fuel : ℕ) (M : Mat r c) (it : ℕ),
      (∀ k, k < fuel → ¬ deviation R Ct (rasIter R Ct (k + 1) M) < tol) →
      rasLoop R Ct tol fuel M it = ⟨rasIter R Ct fuel M, false, it + fuel⟩ := by
  intro fuel
  induction fuel with
  | zero =>
    intro M it _
    rfl
  | succ fuel ih =>
    intro M it h
    have h0 : ¬ deviation R Ct (rasStep R Ct M) < tol := h 0 (Nat.succ_pos _)
    rw [rasLoop_succ, if_neg h0,
      ih (rasStep R Ct M) (it + 1) (fun k hk => h (k + 1) (Nat.succ_lt_succ hk))]
    have harith : it + 1 + fuel = it + (fuel + 1) := by omega
    rw [harith]
    rfl

theorem rasLoop_matrix_mem (R : Fin r → ℚ) (Ct : Fin c → ℚ) (tol : ℚ) :
    ∀ (fuel : ℕ) (M : Mat r c) (it : ℕ),
      ∃ k, 1 ≤ k ∧ k ≤ fuel + 1 ∧
        (rasLoop R Ct tol (fuel + 1) M it).matrix = rasIter R Ct k M := by
  intro fuel
  induction fuel with
  | zero =>
    intro M it
    refine ⟨1, le_refl 1, le_refl 1, ?_⟩
    rw [rasLoop_succ]
    by_cases h : deviation R Ct (rasStep R Ct M) < tol
    · rw [if_pos h]
      rfl
    · rw [if_neg h, rasLoop_zero]
      rfl
  | succ fuel ih =>
    intro M it
    rw [rasLoop_succ]
    by_cases h : deviation R Ct (rasStep R Ct M) < tol
    · exact ⟨1, le_refl 1, by omega, by rw [if_pos h]; rfl⟩
    · obtain ⟨k, hk1, hk2, hm⟩ := ih (rasStep R Ct M) (it + 1)
      exact ⟨k + 1, by omega, by omega, by rw [if_neg h]; exact hm⟩

/-! Zero-row lemmas. -/

theorem row_sums_zero_row (M : Mat r c) (i : Fin r) (h : ∀ j, M i j = 0) :
    row_sums M i = 0 :=
  Finset.sum_eq_zero fun j _ => h j

theorem zero_row_of_sum_eq_zero (M : Mat r c) (i : Fin r) (hnn : ∀ j, 0 ≤ M i j)
    (hs : row_sums M i = 0) : ∀ j, M i j = 0 := by
  intro j
  have hs' : ∑ j, M i j = 0 := hs
  exact (Finset.sum_eq_zero_iff_of_nonneg (fun j _ => hnn j)).mp hs' j (Finset.mem_univ j)

theorem rowScale_zero_row (R : Fin r → ℚ) (M : Mat r c) (i : Fin r)
    (h : ∀ j, M i j = 0) : ∀ j, rowScale R M i j = 0 := by
  intro j
  unfold rowScale
  rw [h j, zero_mul]

theorem colScale_zero_row (Ct : Fin c → ℚ) (M : Mat r c) (i : Fin r)
    (h : ∀ j, M i j = 0) : ∀ j, colScale Ct M i j = 0 := by
  intro j
  unfold colScale
  rw [h j, zero_mul]

theorem rasStep_zero_row (R : Fin r → ℚ) (Ct : Fin c → ℚ) (M : Mat r c) (i : Fin r)
    (h : ∀ j, M i j = 0) : ∀ j, rasStep R Ct M i j = 0 :=
  colScale_zero_row Ct (rowScale R M) i (rowScale_zero_row R M i h)

theorem rasIter_zero_row (R : Fin r → ℚ) (Ct : Fin c → ℚ) (i : Fin r) :
    ∀ (k : ℕ) (M : Mat r c), (∀ j, M i j = 0) → ∀ j, rasIter R Ct k M i j = 0 := by
  intro k
  induction k with
  | zero => intro M h j; exact h j
  | succ k ih => intro M h j; exact ih (rasStep R Ct M) (rasStep_zero_row R Ct M i h) j

theorem target_le_deviation (R : Fin r → ℚ) (Ct : Fin c → ℚ) (M : Mat r c) (i : Fin r)
    (h : row_sums M i = 0) : R i ≤ deviation R Ct M := by
  have h1 : |row_sums M i - R i| = |R i| := by rw [h, zero_sub, abs_neg]
  have h2 : R i ≤ |row_sums M i - R i| := by rw [h1]; exact le_abs_self (R i)
  have h3 : |row_sums M i - R i| ≤ row_diff R M :=
    Finset.single_le_sum (f := fun i => |row_sums M i - R i|)
      (fun _ _ => abs_nonneg _) (Finset.mem_univ i)
  calc R i ≤ |row_sums M i - R i| := h2
    _ ≤ row_diff R M := h3
    _ ≤ deviation R Ct M := le_add_of_nonneg_right (col_diff_nonneg Ct M)

theorem rasLoop_zero_row (R : Fin r → ℚ) (Ct : Fin c → ℚ) (tol : ℚ) (i : Fin r)
    (hT : tol ≤ R i) :
    ∀ (fuel : ℕ) (M : Mat r c) (it : ℕ), (∀ j, M i j = 0) →
      (∀ j, (rasLoop R Ct tol fuel M it).matrix i j = 0) ∧
        (rasLoop R Ct tol fuel M it).converged = false := by
  intro fuel
  induction fuel with
  | zero => intro M it h; exact ⟨h, rfl⟩
  | succ fuel ih =>
    intro M it h
    have hstep : ∀ j, rasStep R Ct M i j = 0 := rasStep_zero_row R Ct M i h
    have hrs : row_sums (rasStep R Ct M) i = 0 := row_sums_zero_row _ i hstep
    have hnc : ¬ deviation R Ct (rasStep R Ct M) < tol :=
      not_lt.mpr (le_trans hT (target_le_deviation R Ct _ i hrs))
    rw [rasLoop_succ, if_neg hnc]
    exact ih (rasStep R Ct M) (it + 1) hstep

/-! Non-negativity lemmas. -/

theorem row_sums_nonneg (M : Mat r c) (i : Fin r) (h : ∀ j, 0 ≤ M i j) :
    0 ≤ row_sums M i :=
  Finset.sum_nonneg fun j _ => h j

theorem col_sums_nonneg (M : Mat r c) (j : Fin c) (h : ∀ i, 0 ≤ M i j) :
    0 ≤ col_sums M j :=
  Finset.sum_nonneg fun i _ => h i

theorem r_scalers_nonneg (R : Fin r → ℚ) (M : Mat r c) (i : Fin r)
    (hR : 0 ≤ R i) (hM : ∀ j, 0 ≤ M i j) : 0 ≤ r_scalers R M i := by
  unfold r_scalers
  split
  · exact zero_le_one
  · exact div_nonneg hR (row_sums_nonneg M i hM)

theorem s_scalers_nonneg (Ct : Fin c → ℚ) (M : Mat r c) (j : Fin c)
    (hC : 0 ≤ Ct j) (hM : ∀ i, 0 ≤ M i j) : 0 ≤ s_scalers Ct M j := by
  unfold s_scalers
  split
  · exact zero_le_one
  · exact div_nonneg hC (col_sums_nonneg M j hM)

theorem rowScale_nonneg (R : Fin r → ℚ) (M : Mat r c)
    (hR : ∀ i, 0 ≤ R i) (hM : ∀ i j, 0 ≤ M i j) : ∀ i j, 0 ≤ rowScale R M i j :=
  fun i j => mul_nonneg (hM i j) (r_scalers_nonneg R M i (hR i) (hM i))

theorem colScale_nonneg (Ct : Fin c → ℚ) (M : Mat r c)
    (hC : ∀ j, 0 ≤ Ct j) (hM : ∀ i j, 0 ≤ M i j) : ∀ i j, 0 ≤ colScale Ct M i j :=
  fun i j => mul_nonneg (hM i j) (s_scalers_nonneg Ct M j (hC j) (fun i => hM i j))

theorem rasStep_nonneg (R : Fin r → ℚ) (Ct : Fin c → ℚ) (M : Mat r c)
    (hR : ∀ i, 0 ≤ R i) (hC : ∀ j, 0 ≤ Ct j) (hM : ∀ i j, 0 ≤ M i j) :
    ∀ i j, 0 ≤ rasStep R Ct M i j :=
  colScale_nonneg Ct (rowScale R M) hC (rowScale_nonneg R M hR hM)

theorem rasIter_nonneg (R : Fin r → ℚ) (Ct : Fin c → ℚ)
    (hR : ∀ i, 0 ≤ R i) (hC : ∀ j, 0 ≤ Ct j) :
    ∀ (k : ℕ) (M : Mat r c), (∀ i j, 0 ≤ M i j) → ∀ i j, 0 ≤ rasIter R Ct k M i j := by
  intro k
  induction k with
  | zero => intro M hM; exact hM
  | succ k ih => intro M hM; exact ih (rasStep R Ct M) (rasStep_nonneg R Ct M hR hC hM)

/-! Scaling lemmas, toward scale invariance. -/

theorem row_sums_scale (k : ℚ) (M : Mat r c) (i : Fin r) :
    row_sums (fun i j => k * M i j) i = k * row_sums M i := by
  unfold row_sums
  rw [Finset.mul_sum]

theorem col_sums_scale (k : ℚ) (M : Mat r c) (j : Fin c) :
    col_sums (fun i j => k * M i j) j = k * col_sums M j := by
  unfold col_sums
  rw [Finset.mul_sum]

theorem r_scalers_scale (k : ℚ) (hk : k ≠ 0) (R : Fin r → ℚ) (M : Mat r c) (i : Fin r) :
    r_scalers (fun i => k * R i) (fun i j => k * M i j) i = r_scalers R M i := by
  unfold r_scalers
  rw [row_sums_scale]
  by_cases h : row_sums M i = 0
  · rw [h, mul_zero]
    simp
  · rw [if_neg (mul_ne_zero hk h), if_neg h, mul_div_mul_left _ _ hk]

theorem s_scalers_scale (k : ℚ) (hk : k ≠ 0) (Ct : Fin c → ℚ) (M : Mat r c) (j : Fin c) :
    s_scalers (fun j => k * Ct j) (fun i j => k * M i j) j = s_scalers Ct M j := by
  unfold s_scalers
  rw [col_sums_scale]
  by_cases h : col_sums M j = 0
  · rw [h, mul_zero]
    simp
  · rw [if_neg (mul_ne_zero hk h), if_neg h, mul_div_mul_left _ _ hk]

theorem rowScale_scale (k : ℚ) (hk : k ≠ 0) (R : Fin r → ℚ) (M : Mat r c) :
    rowScale (fun i => k * R i) (fun i j => k * M i j)
      = fun i j => k * rowScale R M i j := by
  funext i j
  unfold rowScale
  rw [r_scalers_scale k hk]
  ring

theorem colScale_scale (k : ℚ) (hk : k ≠ 0) (Ct : Fin c → ℚ) (M : Mat r c) :
    colScale (fun j => k * Ct j) (fun i j => k * M i j)
      = fun i j => k * colScale Ct M i j := by
  funext i j
  unfold colScale
  rw [s_scalers_scale k hk]
  ring

theorem rasStep_scale (k : ℚ) (hk : k ≠ 0) (R : Fin r → ℚ) (Ct : Fin c → ℚ)
    (M : Mat r c) :
    rasStep (fun i => k * R i) (fun j => k * Ct j) (fun i j => k * M i j)
      = fun i j => k * rasStep R Ct M i j := by
  unfold rasStep
  rw [rowScale_scale k hk, colScale_scale k hk]

theorem row_diff_scale (k : ℚ) (hk : 0 ≤ k) (R : Fin r → ℚ) (M : Mat r c) :
    row_diff (fun i => k * R i) (fun i j => k * M i j) = k * row_diff R M := by
  unfold row_diff
  rw [Finset.mul_sum]
  refine Finset.sum_congr rfl fun i _ => ?_
  rw [row_sums_scale, ← mul_sub, abs_mul, abs_of_nonneg hk]

theorem col_diff_scale (k : ℚ) (hk : 0 ≤ k) (Ct : Fin c → ℚ) (M : Mat r c) :
    col_diff (fun j => k * Ct j) (fun i j => k * M i j) = k * col_diff Ct M := by
  unfold col_diff
  rw [Finset.mul_sum]
  refine Finset.sum_congr rfl fun j _ => ?_
  rw [col_sums_scale, ← mul_sub, abs_mul, abs_of_nonneg hk]

theorem deviation_scale (k : ℚ) (hk : 0 ≤ k) (R : Fin r → ℚ) (Ct : Fin c → ℚ)
    (M : Mat r c) :
    deviation (fun i => k * R i) (fun j => k * Ct j) (fun i j => k * M i j)
      = k * deviation R Ct M := by
  unfold deviation
  rw [row_diff_scale k hk, col_diff_scale k hk, mul_add]

theorem rasLoop_scale (k : ℚ) (hk : 0 < k) (R : Fin r → ℚ) (Ct : Fin c → ℚ) (tol : ℚ) :
    ∀ (fuel : ℕ) (M : Mat r c) (it : ℕ),
      rasLoop (fun i => k * R i) (fun j => k * Ct j) (k * tol) fuel
          (fun i j => k * M i j) it =
        ⟨fun i j => k * (rasLoop R Ct tol fuel M it).matrix i j,
          (rasLoop R Ct tol fuel M it).converged,
          (rasLoop R Ct tol fuel M it).iterationsUsed⟩ := by
  intro fuel
  induction fuel with
  | zero => intro M it; rfl
  | succ fuel ih =>
    intro M it
    rw [rasLoop_succ, rasLoop_succ, rasStep_scale k (ne_of_gt hk),
      deviation_scale k (le_of_lt hk)]
    simp only [mul_lt_mul_left hk]
    by_cases h : deviation R Ct (rasStep R Ct M) < tol
    · rw [if_pos h, if_pos h]
    · rw [if_neg h, if_neg h, ih (rasStep R Ct M) (it + 1)]

/-! Heap lemmas. -/

theorem getD_append_left {α : Type} :
    ∀ (l₁ l₂ : List α) (i : ℕ) (d : α), i < l₁.length →
      (l₁ ++ l₂).getD i d = l₁.getD i d := by
  intro l₁
  induction l₁ with
  | nil => intro l₂ i d hi; exact absurd hi (Nat.not_lt_zero i)
  | cons a l ih =>
    intro l₂ i d hi
    cases i with
    | zero => rfl
    | succ i =>
      simp only [List.cons_append, List.getD_cons_succ]
      exact ih l₂ i d (Nat.lt_of_succ_lt_succ hi)

theorem getD_append_length_add {α : Type} :
    ∀ (l₁ l₂ : List α) (k : ℕ) (d : α),
      (l₁ ++ l₂).getD (l₁.length + k) d = l₂.getD k d := by
  intro l₁
  induction l₁ with
  | nil =>
    intro l₂ k d
    rw [List.nil_append]
    rw [show ([] : List α).length + k = k by rw [List.length_nil]; omega]
  | cons a l ih =>
    intro l₂ k d
    rw [show (a :: l).length + k = (l.length + k) + 1 by rw [List.length_cons]; omega]
    simp only [List.cons_append, List.getD_cons_succ]
    exact ih l₂ k d

theorem heapPush_length (R : Fin r → ℚ) (Ct : Fin c → ℚ) (h : Heap r c) (bid : ℕ) :
    (heapPush R Ct h bid).length = h.length + 2 := by
  unfold heapPush
  rw [List.length_append]
  rfl

theorem readArr_append_self (h : Heap r c) (A : Mat r c) :
    readArr (h ++ [A]) h.length = A := by
  unfold readArr
  have e := getD_append_length_add h [A] 0 (fun _ _ => 0)
  rw [Nat.add_zero] at e
  rw [e]
  rfl

theorem readArr_heapPush (R : Fin r → ℚ) (Ct : Fin c → ℚ) (h : Heap r c) (bid : ℕ) :
    readArr (heapPush R Ct h bid) (h.length + 1) = rasStep R Ct (readArr h bid) := by
  unfold heapPush readArr
  rw [getD_append_length_add]
  rfl

theorem rasLoopHeap_succ (R : Fin r → ℚ) (Ct : Fin c → ℚ) (tol : ℚ) (fuel : ℕ)
    (h : Heap r c) (bid it : ℕ) :
    rasLoopHeap R Ct tol (fuel + 1) h bid it =
      if deviation R Ct (rasStep R Ct (readArr h bid)) < tol
      then (heapPush R Ct h bid, h.length + 1, true, it)
      else rasLoopHeap R Ct tol fuel (heapPush R Ct h bid) (h.length + 1) (it + 1) := rfl

theorem rasLoopHeap_extends (R : Fin r → ℚ) (Ct : Fin c → ℚ) (tol : ℚ) :
    ∀ (fuel : ℕ) (h : Heap r c) (bid it : ℕ),
      ∃ ext : Heap r c, (rasLoopHeap R Ct tol fuel h bid it).1 = h ++ ext := by
  intro fuel
  induction fuel with
  | zero => intro h bid it; exact ⟨[], (List.append_nil h).symm⟩
  | succ fuel ih =>
    intro h bid it
    rw [rasLoopHeap_succ]
    by_cases hd : deviation R Ct (rasStep R Ct (readArr h bid)) < tol
    · rw [if_pos hd]
      exact ⟨[rowScale R (readArr h bid), rasStep R Ct (readArr h bid)], rfl⟩
    · rw [if_neg hd]
      obtain ⟨ext, he⟩ := ih (heapPush R Ct h bid) (h.length + 1) (it + 1)
      refine ⟨[rowScale R (readArr h bid), rasStep R Ct (readArr h bid)] ++ ext, ?_⟩
      rw [he]
      unfold heapPush
      rw [List.append_assoc]

theorem rasLoopHeap_id_bound (R : Fin r → ℚ) (Ct : Fin c → ℚ) (tol : ℚ) :
    ∀ (fuel : ℕ) (h : Heap r c) (bid it : ℕ), bid < h.length →
      bid ≤ (rasLoopHeap R Ct tol fuel h bid it).2.1 ∧
        (rasLoopHeap R Ct tol fuel h bid it).2.1 <
          (rasLoopHeap R Ct tol fuel h bid it).1.length := by
  intro fuel
  induction fuel with
  | zero => intro h bid it hb; exact ⟨le_refl bid, hb⟩
  | succ fuel ih =>
    intro h bid it hb
    rw [rasLoopHeap_succ]
    by_cases hd : deviation R Ct (rasStep R Ct (readArr h bid)) < tol
    · rw [if_pos hd]
      refine ⟨?_, ?_⟩
      · show bid ≤ h.length + 1
        omega
      · show h.length + 1 < (heapPush R Ct h bid).length
        rw [heapPush_length]
        omega
    · rw [if_neg hd]
      have hb2 : h.length + 1 < (heapPush R Ct h bid).length := by
        rw [heapPush_length]; omega
      obtain ⟨h1, h2⟩ := ih (heapPush R Ct h bid) (h.length + 1) (it + 1) hb2
      exact ⟨by omega, h2⟩

theorem rasLoopHeap_refines (R : Fin r → ℚ) (Ct : Fin c → ℚ) (tol : ℚ) :
    ∀ (fuel : ℕ) (h : Heap r c) (bid it : ℕ),
      readArr (rasLoopHeap R Ct tol fuel h bid it).1 (rasLoopHeap R Ct tol fuel h bid it).2.1
          = (rasLoop R Ct tol fuel (readArr h bid) it).matrix ∧
        (rasLoopHeap R Ct tol fuel h bid it).2.2.1
          = (rasLoop R Ct tol fuel (readArr h bid) it).converged ∧
        (rasLoopHeap R Ct tol fuel h bid it).2.2.2
          = (rasLoop R Ct tol fuel (readArr h bid) it).iterationsUsed := by
  intro fuel
  induction fuel with
  | zero => intro h bid it; exact ⟨rfl, rfl, rfl⟩
  | succ fuel ih =>
    intro h bid it
    rw [rasLoopHeap_succ, rasLoop_succ]
    by_cases hd : deviation R Ct (rasStep R Ct (readArr h bid)) < tol
    · rw [if_pos hd, if_pos hd]
      exact ⟨readArr_heapPush R Ct h bid, rfl, rfl⟩
    · rw [if_neg hd, if_neg hd]
      have ih2 := ih (heapPush R Ct h bid) (h.length + 1) (it + 1)
      rw [readArr_heapPush R Ct h bid] at ih2
      exact ih2

/-! Remaining helper lemmas for the claim theorems. -/

theorem ras_balance_toLoop (M : Mat r c) (R : Fin r → ℚ) (Ct : Fin c → ℚ)
    (tol : ℚ) (n : ℕ) :
    ras_balance M R Ct tol (n : ℤ) = rasLoop R Ct tol n M 0 := rfl

theorem rasLoop_zero_row_matrix (R : Fin r → ℚ) (Ct : Fin c → ℚ) (tol : ℚ) (i : Fin r) :
    ∀ (fuel : ℕ) (M : Mat r c) (it : ℕ), (∀ j, M i j = 0) →
      ∀ j, (rasLoop R Ct tol fuel M it).matrix i j = 0 := by
  intro fuel
  induction fuel with
  | zero => intro M it h; exact h
  | succ fuel ih =>
    intro M it h
    rw [rasLoop_succ]
    by_cases hd : deviation R Ct (rasStep R Ct M) < tol
    · rw [if_pos hd]
      exact rasStep_zero_row R Ct M i h
    · rw [if_neg hd]
      exact ih (rasStep R Ct M) (it + 1) (rasStep_zero_row R Ct M i h)

/-! Claim theorems. -/

/-- C1: each iteration of `ras_balance` applies the row scaling first and then
the column scaling to the row-scaled matrix (`colScale Ct (rowScale R M)`,
never the reverse composition), then evaluates `deviation` on that
row-and-column-scaled matrix, and the run terminates with convergence exactly
when some iteration's freshly scaled matrix satisfies `deviation < tolerance`. -/
theorem C1_iteration_order (M : Mat r c) (R : Fin r → ℚ) (Ct : Fin c → ℚ)
    (tol : ℚ) (fuel it n : ℕ) :
    (rasLoop R Ct tol (fuel + 1) M it =
        if deviation R Ct (colScale Ct (rowScale R M)) < tol
        then ⟨colScale Ct (rowScale R M), true, it⟩
        else rasLoop R Ct tol fuel (colScale Ct (rowScale R M)) (it + 1)) ∧
      ((ras_balance M R Ct tol (n : ℤ)).converged = true ↔
        ∃ k, k < n ∧ deviation R Ct (rasIter R Ct (k + 1) M) < tol) := by
  constructor
  · exact rasLoop_succ R Ct tol fuel M it
  · rw [ras_balance_toLoop]
    exact rasLoop_converged_iff R Ct tol n M 0

/-- C2: in the row-scaling step each row i with nonzero current sum is
multiplied entrywise by `R i / s_i` and a row with zero current sum is left
unchanged (identity scaler 1, independently of the value of `R i`); the
symmetric contract holds for the column-scaling step. -/
theorem C2_scaler_contract (M : Mat r c) (R : Fin r → ℚ) (Ct : Fin c → ℚ)
    (i : Fin r) (j : Fin c) :
    (rowScale R M i j =
        if row_sums M i = 0 then M i j else M i j * (R i / row_sums M i)) ∧
      (colScale Ct M i j =
        if col_sums M j = 0 then M i j else M i j * (Ct j / col_sums M j)) := by
  constructor
  · unfold rowScale r_scalers
    by_cases h : row_sums M i = 0
    · rw [if_pos h, if_pos h, mul_one]
    · rw [if_neg h, if_neg h]
  · unfold colScale s_scalers
    by_cases h : col_sums M j = 0
    · rw [if_pos h, if_pos h, mul_one]
    · rw [if_neg h, if_neg h]

/-- C3 counterexample: `ras_balance` contains no validation whatsoever, so a
call whose matrix has a negative entry is not rejected: on the 1-by-1 matrix
[[-1]] with targets [2], [2] a full scaling iteration is performed (the entry
becomes 2 = (-1) * (2 / -1)) and the run even reports convergence at
iteration 0 — contradicting the claim that an InvalidInputError is raised
immediately with no partial work performed. -/
theorem C3_counterexample_invalid_input :
    (ras_balance ![![(-1:ℚ)]] ![(2:ℚ)] ![(2:ℚ)] (1/1000000) 1).matrix 0 0 = 2 ∧
      (ras_balance ![![(-1:ℚ)]] ![(2:ℚ)] ![(2:ℚ)] (1/1000000) 1).converged = true ∧
      (ras_balance ![![(-1:ℚ)]] ![(2:ℚ)] ![(2:ℚ)] (1/1000000) 1).iterationsUsed = 0 := by
  refine ⟨?_, ?_, ?_⟩ <;>
    norm_num [ras_balance, rasLoop, rasStep, rowScale, colScale, r_scalers, s_scalers,
      row_sums, col_sums, deviation, row_diff, col_diff, abs_of_nonneg, abs_of_nonpos]

/-- C3 amended: `ras_balance` performs no input validation and raises nothing.
A call with non-positive tolerance proceeds and simply never converges (the
deviation, a sum of absolute values, is never below a non-positive bound), so
it runs all `max_iterations` iterations and returns `Converged=false`; a call
with negative `max_iterations` performs zero iterations (`range` of a
negative bound is empty) and returns the copied input with `Converged=false`;
negative entries are processed like any others (see the counterexample). -/
theorem C3_no_validation_amended (M : Mat r c) (R : Fin r → ℚ) (Ct : Fin c → ℚ)
    (tol : ℚ) (n : ℕ) (z : ℤ) :
    (tol ≤ 0 → ras_balance M R Ct tol (n : ℤ) = ⟨rasIter R Ct n M, false, n⟩) ∧
      (z < 0 → ras_balance M R Ct tol z = ⟨M, false, 0⟩) := by
  constructor
  · intro ht
    rw [ras_balance_toLoop]
    have h := rasLoop_exhaust R Ct tol n M 0
      (fun k _ => not_lt.mpr (le_trans ht (deviation_nonneg R Ct _)))
    rw [h, Nat.zero_add]
  · intro hz
    unfold ras_balance
    rw [Int.toNat_of_nonpos (le_of_lt hz)]
    rfl

/-- Witness for the amended C3: both hypotheses discharged at concrete
inputs. -/
theorem C3_no_validation_witness :
    ((-1 : ℚ) ≤ 0 ∧
        ras_balance ![![(5:ℚ)]] ![(3:ℚ)] ![(4:ℚ)] (-1) ((2:ℕ) : ℤ)
          = ⟨rasIter ![(3:ℚ)] ![(4:ℚ)] 2 ![![(5:ℚ)]], false, 2⟩) ∧
      ((-7 : ℤ) < 0 ∧
        ras_balance ![![(5:ℚ)]] ![(3:ℚ)] ![(4:ℚ)] (1/2) (-7)
          = ⟨![![(5:ℚ)]], false, 0⟩) :=
  ⟨⟨by norm_num,
      (C3_no_validation_amended ![![(5:ℚ)]] ![(3:ℚ)] ![(4:ℚ)] (-1) 2 (-7)).1 (by norm_num)⟩,
    ⟨by norm_num,
      (C3_no_validation_amended ![![(5:ℚ)]] ![(3:ℚ)] ![(4:ℚ)] (1/2) 2 (-7)).2 (by norm_num)⟩⟩

/-- C4: when no iteration meets the tolerance, `ras_balance` returns normally
a result carrying the matrix after exactly `max_iterations` full passes, with
`Converged=false` and `IterationsUsed = max_iterations`. -/
theorem C4_max_iterations_result (M : Mat r c) (R : Fin r → ℚ) (Ct : Fin c → ℚ)
    (tol : ℚ) (n : ℕ)
    (h : ∀ k, k < n → ¬ deviation R Ct (rasIter R Ct (k + 1) M) < tol) :
    ras_balance M R Ct tol (n : ℤ) = ⟨rasIter R Ct n M, false, n⟩ := by
  rw [ras_balance_toLoop, rasLoop_exhaust R Ct tol n M 0 h, Nat.zero_add]

/-- Witness for C4: the all-zero 1-by-1 matrix with row target 1 never meets
the tolerance 1/2, so one requested iteration is used up and reported. -/
theorem C4_max_iterations_witness :
    (∀ k, k < 1 →
        ¬ deviation ![(1:ℚ)] ![(0:ℚ)] (rasIter ![(1:ℚ)] ![(0:ℚ)] (k + 1) ![![(0:ℚ)]]) < 1/2) ∧
      ras_balance ![![(0:ℚ)]] ![(1:ℚ)] ![(0:ℚ)] (1/2) ((1:ℕ) : ℤ)
        = ⟨rasIter ![(1:ℚ)] ![(0:ℚ)] 1 ![![(0:ℚ)]], false, 1⟩ := by
  have h : ∀ k, k < 1 →
      ¬ deviation ![(1:ℚ)] ![(0:ℚ)] (rasIter ![(1:ℚ)] ![(0:ℚ)] (k + 1) ![![(0:ℚ)]]) < 1/2 := by
    intro k hk
    have hk0 : k = 0 := by omega
    subst hk0
    norm_num [deviation, row_diff, col_diff, row_sums, col_sums, rasIter, rasStep,
      rowScale, colScale, r_scalers, s_scalers]
  exact ⟨h, C4_max_iterations_result ![![(0:ℚ)]] ![(1:ℚ)] ![(0:ℚ)] (1/2) 1 h⟩

/-- C5: a (non-negative) input row that sums to zero stays all-zero in the
returned matrix — the identity scaler never lets it acquire mass — and when
that row's target is at least the tolerance, the run reports
`Converged=false` instead of raising or reporting success. -/
theorem C5_zero_row_degeneracy (M : Mat r c) (R : Fin r → ℚ) (Ct : Fin c → ℚ)
    (tol : ℚ) (z : ℤ) (i : Fin r)
    (hnn : ∀ j, 0 ≤ M i j) (hz : row_sums M i = 0) :
    (∀ j, (ras_balance M R Ct tol z).matrix i j = 0) ∧
      (tol ≤ R i → (ras_balance M R Ct tol z).converged = false) := by
  have h0 : ∀ j, M i j = 0 := zero_row_of_sum_eq_zero M i hnn hz
  constructor
  · exact rasLoop_zero_row_matrix R Ct tol i z.toNat M 0 h0
  · intro ht
    exact (rasLoop_zero_row R Ct tol i ht z.toNat M 0 h0).2

/-- Witness for C5 at the all-zero 1-by-1 matrix with row target 1 and
tolerance 1/2. -/
theorem C5_zero_row_witness :
    ((∀ j, (0:ℚ) ≤ ![![(0:ℚ)]] 0 j) ∧ row_sums ![![(0:ℚ)]] 0 = 0 ∧
        (1/2 : ℚ) ≤ ![(1:ℚ)] 0) ∧
      ((∀ j, (ras_balance ![![(0:ℚ)]] ![(1:ℚ)] ![(0:ℚ)] (1/2) 3).matrix 0 j = 0) ∧
        (ras_balance ![![(0:ℚ)]] ![(1:ℚ)] ![(0:ℚ)] (1/2) 3).converged = false) := by
  have hnn : ∀ j, (0:ℚ) ≤ ![![(0:ℚ)]] 0 j := by intro j; simp
  have hz : row_sums ![![(0:ℚ)]] 0 = 0 := by norm_num [row_sums]
  have ht : (1/2 : ℚ) ≤ ![(1:ℚ)] 0 := by norm_num
  have h := C5_zero_row_degeneracy ![![(0:ℚ)]] ![(1:ℚ)] ![(0:ℚ)] (1/2) 3 0 hnn hz
  exact ⟨⟨hnn, hz, ht⟩, h.1, h.2 ht⟩

/-- C6: with non-negative matrix entries and targets every scaler computed in
any iteration is non-negative, and every entry of the working matrix remains
non-negative after the row-scaling step and after the column-scaling step of
every iteration. -/
theorem C6_nonneg_invariant (M : Mat r c) (R : Fin r → ℚ) (Ct : Fin c → ℚ)
    (hM : ∀ i j, 0 ≤ M i j) (hR : ∀ i, 0 ≤ R i) (hC : ∀ j, 0 ≤ Ct j) (k : ℕ) :
    (∀ i, 0 ≤ r_scalers R (rasIter R Ct k M) i) ∧
      (∀ j, 0 ≤ s_scalers Ct (rowScale R (rasIter R Ct k M)) j) ∧
      (∀ i j, 0 ≤ rowScale R (rasIter R Ct k M) i j) ∧
      (∀ i j, 0 ≤ rasIter R Ct (k + 1) M i j) := by
  have hk : ∀ i j, 0 ≤ rasIter R Ct k M i j := rasIter_nonneg R Ct hR hC k M hM
  have hrow : ∀ i j, 0 ≤ rowScale R (rasIter R Ct k M) i j :=
    rowScale_nonneg R _ hR hk
  refine ⟨fun i => r_scalers_nonneg R _ i (hR i) (hk i),
    fun j => s_scalers_nonneg Ct _ j (hC j) (fun i => hrow i j), hrow, ?_⟩
  rw [rasIter_succ]
  exact rasStep_nonneg R Ct _ hR hC hk

/-- Witness for C6 at the 1-by-1 all-ones instance. -/
theorem C6_nonneg_witness :
    (∀ i j, (0:ℚ) ≤ ![![(1:ℚ)]] i j) ∧
      (∀ i, (0:ℚ) ≤ ![(1:ℚ)] i) ∧
      (∀ i j, 0 ≤ rasIter ![(1:ℚ)] ![(1:ℚ)] 1 ![![(1:ℚ)]] i j) := by
  have hM : ∀ i j, (0:ℚ) ≤ ![![(1:ℚ)]] i j := by intro i j; fin_cases i; fin_cases j; norm_num
  have hR : ∀ i, (0:ℚ) ≤ ![(1:ℚ)] i := by intro i; fin_cases i; norm_num
  exact ⟨hM, hR, (C6_nonneg_invariant ![![(1:ℚ)]] ![(1:ℚ)] ![(1:ℚ)] hM hR hR 0).2.2.2⟩

/-- C7: the caller's array is left unchanged by a run of the heap-level
`ras_balance`: every heap cell that existed before the call still holds its
old array afterwards (the heap only grows), the id of the returned array is
distinct from the caller's id, and the returned array's value is exactly the
one computed by the pure-value semantics from a copy of the caller's array. -/
theorem C7_no_alias (h : Heap r c) (mid : ℕ) (R : Fin r → ℚ) (Ct : Fin c → ℚ)
    (tol : ℚ) (z : ℤ) (hmid : mid < h.length) :
    (∀ i, i < h.length →
        readArr (ras_balance_heap h mid R Ct tol z).1 i = readArr h i) ∧
      (ras_balance_heap h mid R Ct tol z).2.1 ≠ mid ∧
      readArr (ras_balance_heap h mid R Ct tol z).1 (ras_balance_heap h mid R Ct tol z).2.1
        = (ras_balance (readArr h mid) R Ct tol z).matrix := by
  unfold ras_balance_heap
  have hb : h.length < (h ++ [readArr h mid]).length := by
    rw [List.length_append]
    simp
  refine ⟨?_, ?_, ?_⟩
  · intro i hi
    obtain ⟨ext, he⟩ :=
      rasLoopHeap_extends R Ct tol z.toNat (h ++ [readArr h mid]) h.length 0
    rw [he, List.append_assoc]
    unfold readArr
    exact getD_append_left h _ i _ hi
  · obtain ⟨h1, _⟩ :=
      rasLoopHeap_id_bound R Ct tol z.toNat (h ++ [readArr h mid]) h.length 0 hb
    intro heq
    rw [heq] at h1
    omega
  · obtain ⟨hm, _, _⟩ :=
      rasLoopHeap_refines R Ct tol z.toNat (h ++ [readArr h mid]) h.length 0
    rw [readArr_append_self h (readArr h mid)] at hm
    exact hm

/-- Witness for C7 on a one-array heap. -/
theorem C7_no_alias_witness :
    0 < ([![![(1:ℚ)]]] : Heap 1 1).length ∧
      ((∀ i, i < ([![![(1:ℚ)]]] : Heap 1 1).length →
          readArr (ras_balance_heap [![![(1:ℚ)]]] 0 ![(1:ℚ)] ![(1:ℚ)] 1 3).1 i
            = readArr [![![(1:ℚ)]]] i) ∧
        (ras_balance_heap [![![(1:ℚ)]]] 0 ![(1:ℚ)] ![(1:ℚ)] 1 3).2.1 ≠ 0 ∧
        readArr (ras_balance_heap [![![(1:ℚ)]]] 0 ![(1:ℚ)] ![(1:ℚ)] 1 3).1
            (ras_balance_heap [![![(1:ℚ)]]] 0 ![(1:ℚ)] ![(1:ℚ)] 1 3).2.1
          = (ras_balance (readArr [![![(1:ℚ)]]] 0) ![(1:ℚ)] ![(1:ℚ)] 1 3).matrix) :=
  ⟨by norm_num, C7_no_alias [![![(1:ℚ)]]] 0 ![(1:ℚ)] ![(1:ℚ)] 1 3 (by norm_num)⟩

set_option maxHeartbeats 2000000 in
/-- C8 counterexample: with the tolerance kept fixed, scaling the input by
k = 2 changes which iteration first meets the tolerance (the deviation scales
by k), so the two runs stop after different numbers of passes and the
returned matrices are NOT related by the factor k: at entry (0,0) the runs
below return 10344/5171 and 2 * 42/41 = 84/41, which differ by more than
1/25 — far beyond any floating-point rounding. -/
theorem C8_counterexample_same_tolerance :
    (ras_balance ![![(2:ℚ),4],![6,8]] ![(8:ℚ),12] ![(6:ℚ),14] (1/5) 2).matrix 0 0 ≠
        2 * (ras_balance ![![(1:ℚ),2],![3,4]] ![(4:ℚ),6] ![(3:ℚ),7] (1/5) 2).matrix 0 0 ∧
      1/25 <
        2 * (ras_balance ![![(1:ℚ),2],![3,4]] ![(4:ℚ),6] ![(3:ℚ),7] (1/5) 2).matrix 0 0 -
          (ras_balance ![![(2:ℚ),4],![6,8]] ![(8:ℚ),12] ![(6:ℚ),14] (1/5) 2).matrix 0 0 := by
  constructor <;>
    norm_num [ras_balance, rasLoop, rasStep, rowScale, colScale, r_scalers, s_scalers,
      row_sums, col_sums, deviation, row_diff, col_diff, Fin.sum_univ_two,
      abs_of_nonneg, abs_of_nonpos]

/-- C8 amended: scale invariance holds when the tolerance is scaled along
with the data: for every k > 0, `balance(k*M, k*R, k*C, k*tol, n)` returns
exactly k times the matrix returned by `balance(M, R, C, tol, n)`, with the
same convergence flag and iteration count.  (With the tolerance held fixed,
as the original claim states it, the two runs can stop at different
iterations; see the counterexample.) -/
theorem C8_scale_invariance_amended (k : ℚ) (hk : 0 < k) (M : Mat r c)
    (R : Fin r → ℚ) (Ct : Fin c → ℚ) (tol : ℚ) (n : ℕ) :
    ras_balance (fun i j => k * M i j) (fun i => k * R i) (fun j => k * Ct j)
        (k * tol) (n : ℤ) =
      ⟨fun i j => k * (ras_balance M R Ct tol (n : ℤ)).matrix i j,
        (ras_balance M R Ct tol (n : ℤ)).converged,
        (ras_balance M R Ct tol (n : ℤ)).iterationsUsed⟩ := by
  simp only [ras_balance_toLoop]
  exact rasLoop_scale k hk R Ct tol n M 0

/-- Witness for the amended C8 with k = 2 on a 1-by-1 instance. -/
theorem C8_scale_invariance_witness :
    (0:ℚ) < 2 ∧
      ras_balance (fun i j => 2 * ![![(1:ℚ)]] i j) (fun i => 2 * ![(1:ℚ)] i)
          (fun j => 2 * ![(1:ℚ)] j) (2 * 1) ((1:ℕ) : ℤ) =
        ⟨fun i j => 2 * (ras_balance ![![(1:ℚ)]] ![(1:ℚ)] ![(1:ℚ)] 1 ((1:ℕ) : ℤ)).matrix i j,
          (ras_balance ![![(1:ℚ)]] ![(1:ℚ)] ![(1:ℚ)] 1 ((1:ℕ) : ℤ)).converged,
          (ras_balance ![![(1:ℚ)]] ![(1:ℚ)] ![(1:ℚ)] 1 ((1:ℕ) : ℤ)).iterationsUsed⟩ :=
  ⟨by norm_num,
    C8_scale_invariance_amended 2 (by norm_num) ![![(1:ℚ)]] ![(1:ℚ)] ![(1:ℚ)] 1 1⟩

/-- C9 counterexample: an input that already satisfies the tolerance (the
1-by-1 identity instance has deviation 0 < 1) still comes back with
`Converged=false` when `max_iterations = 0`, because the loop body — and with
it the convergence check — is never executed; the claim's "unless the input
already satisfies the tolerance" clause does not hold on the code. -/
theorem C9_counterexample_within_tolerance :
    deviation ![(1:ℚ)] ![(1:ℚ)] ![![(1:ℚ)]] < 1 ∧
      (ras_balance ![![(1:ℚ)]] ![(1:ℚ)] ![(1:ℚ)] 1 0).converged = false := by
  constructor
  · norm_num [deviation, row_diff, col_diff, row_sums, col_sums]
  · rfl

/-- C9 amended: `max_iterations = 0` performs zero scaling iterations and
returns the copied input matrix unchanged with `Converged=false`
unconditionally — even when the input already satisfies the tolerance — and
`IterationsUsed = 0`. -/
theorem C9_max_iter_zero_amended (M : Mat r c) (R : Fin r → ℚ) (Ct : Fin c → ℚ)
    (tol : ℚ) :
    ras_balance M R Ct tol 0 = ⟨M, false, 0⟩ := rfl

/-- C10: with `max_iterations ≥ 1` the convergence check never runs before a
full row-and-column pass: the returned matrix is always the result of at
least one (and at most `max_iterations`) full passes — never the untouched
copy of the input — and if the very first pass already meets the tolerance
the run stops there, reporting the once-scaled matrix with
`IterationsUsed = 0`. -/
theorem C10_first_pass (M : Mat r c) (R : Fin r → ℚ) (Ct : Fin c → ℚ)
    (tol : ℚ) (n : ℕ) (hn : 1 ≤ n) :
    (∃ k, 1 ≤ k ∧ k ≤ n ∧
        (ras_balance M R Ct tol (n : ℤ)).matrix = rasIter R Ct k M) ∧
      (deviation R Ct (rasIter R Ct 1 M) < tol →
        ras_balance M R Ct tol (n : ℤ) = ⟨rasIter R Ct 1 M, true, 0⟩) := by
  obtain ⟨m, rfl⟩ : ∃ m, n = m + 1 := ⟨n - 1, by omega⟩
  rw [ras_balance_toLoop]
  constructor
  · exact rasLoop_matrix_mem R Ct tol m M 0
  · intro hd
    have hd2 : deviation R Ct (rasStep R Ct M) < tol := hd
    rw [rasLoop_succ, if_pos hd2]
    rfl

/-- Witness for C10 on the 1-by-1 identity instance with one allowed
iteration. -/
theorem C10_first_pass_witness :
    1 ≤ 1 ∧
      ((∃ k, 1 ≤ k ∧ k ≤ 1 ∧
          (ras_balance ![![(1:ℚ)]] ![(1:ℚ)] ![(1:ℚ)] 1 ((1:ℕ) : ℤ)).matrix
            = rasIter ![(1:ℚ)] ![(1:ℚ)] k ![![(1:ℚ)]]) ∧
        (deviation ![(1:ℚ)] ![(1:ℚ)] (rasIter ![(1:ℚ)] ![(1:ℚ)] 1 ![![(1:ℚ)]]) < 1 →
          ras_balance ![![(1:ℚ)]] ![(1:ℚ)] ![(1:ℚ)] 1 ((1:ℕ) : ℤ)
            = ⟨rasIter ![(1:ℚ)] ![(1:ℚ)] 1 ![![(1:ℚ)]], true, 0⟩)) :=
  ⟨le_refl 1, C10_first_pass ![![(1:ℚ)]] ![(1:ℚ)] ![(1:ℚ)] 1 1 (le_refl 1)⟩

end RAS
